import Mathlib

/-!
Shallow embedding of the product-assignment server (src/server.js):
the in-memory data model (products, agents, assignments, completed
assignments), the allocator endpoint POST /api/assign with its advisory
lock, the lifecycle endpoints POST /api/complete, /api/unassign-product,
/api/unassign-agent, /api/unassign-all, and the CSV merge function
mergeProductsFromCsv.

Timestamps are modelled as integers (the JS code compares dates by
numeric subtraction of Date values).  Request-body fields are Option
String; JS falsiness of a string field (null / undefined / "") is made
explicit.  The server keys products and agents by their id fields
throughout (find / findIndex by id), so in-place mutation of a found
object is modelled as an id-keyed map over the list.
-/

namespace ProductAssignment

structure Product where
  id : String
  name : String
  priority : String
  tenantId : String
  createdOn : Int
  count : Int
  assigned : Bool
  wasAssigned : Bool
  unassignedTime : Option Int
  unassignedBy : Option String
  deriving Repr, DecidableEq

structure Agent where
  id : String
  name : String
  capacity : Nat
  currentAssignments : List String
  deriving Repr, DecidableEq

structure Assignment where
  id : String
  agentId : String
  productId : String
  assignedOn : Int
  completed : Bool
  completedOn : Option Int
  deriving Repr, DecidableEq

structure ServerState where
  products : List Product
  agents : List Agent
  assignments : List Assignment
  completedAssignments : List Assignment
  deriving Repr, DecidableEq

/-- Responses of the modelled endpoints, one constructor per distinct
outcome of src/server.js. -/
inductive Response where
  | busy
  | invalidArgument (msg : String)
  | agentNotFound
  | capacityExceeded
  | noAvailableWork
  | assigned (a : Assignment)
  | completedOk (productId : String)
  | activeAssignmentNotFound
  | noActiveAssignmentForProduct
  | agentNoTasks
  | unassignedProductOk (productId : String)
  | unassignedAgentOk (count : Nat)
  | unassignedAllOk (count : Nat)
  deriving Repr, DecidableEq

/-- HTTP status code attached to each response in src/server.js. -/
def httpStatus : Response → Nat
  | .busy => 409
  | .invalidArgument _ => 400
  | .agentNotFound => 404
  | .capacityExceeded => 400
  | .noAvailableWork => 404
  | .assigned _ => 200
  | .completedOk _ => 200
  | .activeAssignmentNotFound => 404
  | .noActiveAssignmentForProduct => 404
  | .agentNoTasks => 200
  | .unassignedProductOk _ => 200
  | .unassignedAgentOk _ => 200
  | .unassignedAllOk _ => 200

/-- JS truthiness of an optional string request field: a missing field
and the empty string are both falsy. -/
def isFalsyStr : Option String → Bool
  | none => true
  | some s => s == ""

/-- Stable insertion of x into a list, placing x before the first
element y with le x y. -/
def insertSorted (le : α → α → Bool) (x : α) : List α → List α
  | [] => [x]
  | y :: ys => if le x y then x :: y :: ys else y :: insertSorted le x ys

/-- Model of Array.prototype.sort with a numeric comparator: a stable
sort placing a before b when cmp a b is nonpositive.  (For consistent
comparators this is exactly the ES2019 semantics; the server only ever
inspects the head of the sorted array.) -/
def jsSortBy (cmp : α → α → Int) (l : List α) : List α :=
  l.foldr (fun x acc => insertSorted (fun a b => decide (cmp a b ≤ 0)) x acc) []

/-- The priorityMap literal of the assign endpoint. -/
def priorityLookup (p : String) : Option Int :=
  if p == "P1" then some 0 else if p == "P2" then some 1
  else if p == "P3" then some 2 else none

/-- JS "x || d" on a number-or-undefined: both undefined and 0 are
falsy, so a stored 0 falls through to the default. -/
def jsOrNum : Option Int → Int → Int
  | none, d => d
  | some v, d => if v == 0 then d else v

/-- Comparator of the previously-assigned bucket: by unassignedTime
when both products have one (a non-null stored time is a nonempty
string, hence truthy), otherwise by createdOn. -/
def cmpWasAssigned (a b : Product) : Int :=
  match a.unassignedTime, b.unassignedTime with
  | some ta, some tb => ta - tb
  | _, _ => a.createdOn - b.createdOn

/-- Comparator of the never-assigned bucket: by priorityMap value with
999 as the fallback of the falsy lookup, then by createdOn. -/
def cmpNeverAssigned (a b : Product) : Int :=
  let ap := jsOrNum (priorityLookup a.priority) 999
  let bp := jsOrNum (priorityLookup b.priority) 999
  if ap == bp then a.createdOn - b.createdOn else ap - bp

/-- The assignedProductIds set built from every record of the
assignments array (no completed-filter in the code). -/
def assignedProductIds (s : ServerState) : List String :=
  s.assignments.map (fun a => a.productId)

/-- Filter of the first bucket: available, not referenced by any
assignment record, and previously assigned. -/
def wasAssignedCandidates (s : ServerState) : List Product :=
  s.products.filter
    (fun p => !p.assigned && !(assignedProductIds s).contains p.id && p.wasAssigned)

/-- Filter of the second bucket: available, not referenced by any
assignment record, and never assigned. -/
def neverAssignedCandidates (s : ServerState) : List Product :=
  s.products.filter
    (fun p => !p.assigned && !(assignedProductIds s).contains p.id && !p.wasAssigned)

/-- Mutation of the chosen product at assignment time. -/
def setAssignedFlags (pid : String) (ps : List Product) : List Product :=
  ps.map (fun p =>
    if p.id == pid then
      { p with assigned := true, wasAssigned := true,
               unassignedTime := none, unassignedBy := none }
    else p)

/-- One agent object of updateAgentAssignments with its
currentAssignments array cleared. -/
def clearAssignments (ag : Agent) : Agent :=
  { ag with currentAssignments := [] }

/-- agents.find by id followed by a push onto the found agent; the
pushed task object is recorded by its productId, the only field the
server ever reads back (filter by productId, length). -/
def pushAssignment : List Agent → String → String → List Agent
  | [], _, _ => []
  | ag :: rest, aid, pid =>
    if ag.id == aid then
      { ag with currentAssignments := ag.currentAssignments ++ [pid] } :: rest
    else ag :: pushAssignment rest aid pid

/-- The assignments.forEach loop of updateAgentAssignments: push when
both the agent and the product exist. -/
def updateLoop (ps : List Product) : List Agent → List Assignment → List Agent
  | ags, [] => ags
  | ags, a :: rest =>
    updateLoop ps
      (if ps.any (fun p => p.id == a.productId) then
        pushAssignment ags a.agentId a.productId
      else ags) rest

/-- updateAgentAssignments of src/server.js: clear every agent, then
replay the assignments array. -/
def updateAgentAssignments (ps : List Product) (ags : List Agent)
    (asgs : List Assignment) : List Agent :=
  updateLoop ps (ags.map clearAssignments) asgs

/-- Body of POST /api/assign once the advisory lock has been taken. -/
def assignCore (now : Int) (newId : String) (agentId? : Option String)
    (s : ServerState) : Response × ServerState :=
  if isFalsyStr agentId? then (.invalidArgument "Agent ID is required", s)
  else
    let agentId := agentId?.getD ""
    match s.agents.find? (fun a => a.id == agentId) with
    | none => (.agentNotFound, s)
    | some agent =>
      if agent.currentAssignments.length ≥ agent.capacity then (.capacityExceeded, s)
      else
        let bucket1 := jsSortBy cmpWasAssigned (wasAssignedCandidates s)
        let availableProducts :=
          if bucket1.isEmpty then jsSortBy cmpNeverAssigned (neverAssignedCandidates s)
          else bucket1
        match availableProducts with
        | [] => (.noAvailableWork, s)
        | productToAssign :: _ =>
          let products1 := setAssignedFlags productToAssign.id s.products
          let newAssignment : Assignment :=
            { id := newId, agentId := agent.id, productId := productToAssign.id,
              assignedOn := now, completed := false, completedOn := none }
          let assignments1 := s.assignments ++ [newAssignment]
          (.assigned newAssignment,
           { s with products := products1, assignments := assignments1,
                    agents := updateAgentAssignments products1 s.agents assignments1 })

/-- POST /api/assign including the assignmentInProgress advisory lock:
when the flag is set the request is rejected at once with the 409
response and nothing is read or written; otherwise the body runs and
the flag is clear again on every return path. -/
def assignEndpoint (inProgress : Bool) (now : Int) (newId : String)
    (agentId? : Option String) (s : ServerState) :
    Response × ServerState × Bool :=
  if inProgress then (.busy, s, true)
  else
    let r := assignCore now newId agentId? s
    (r.1, r.2, false)

/-- Product mutation of POST /api/complete. -/
def setCompleted (pid : String) (ps : List Product) : List Product :=
  ps.map (fun p => if p.id == pid then { p with assigned := false } else p)

/-- POST /api/complete.  The agent currentAssignments filter of the
code is immediately recomputed from scratch by updateAgentAssignments,
which clears every agent first, so only the recompute is modelled. -/
def completeCore (now : Int) (agentId? productId? : Option String)
    (s : ServerState) : Response × ServerState :=
  if isFalsyStr agentId? || isFalsyStr productId? then
    (.invalidArgument "agentId and productId are required", s)
  else
    let agentId := agentId?.getD ""
    let productId := productId?.getD ""
    match s.agents.find? (fun a => a.id == agentId) with
    | none => (.agentNotFound, s)
    | some _ =>
      match s.assignments.findIdx?
          (fun a => a.agentId == agentId && a.productId == productId && !a.completed) with
      | none => (.activeAssignmentNotFound, s)
      | some idx =>
        match s.assignments[idx]? with
        | none => (.activeAssignmentNotFound, s)
        | some asg =>
          let asg1 := { asg with completed := true, completedOn := some now }
          let completed1 := s.completedAssignments ++ [asg1]
          let assignments1 := s.assignments.eraseIdx idx
          let products1 := setCompleted productId s.products
          (.completedOk productId,
           { s with products := products1, assignments := assignments1,
                    completedAssignments := completed1,
                    agents := updateAgentAssignments products1 s.agents assignments1 })

/-- Product mutation of POST /api/unassign-product. -/
def setUnassigned (now : Int) (byWhom : String) (pid : String)
    (ps : List Product) : List Product :=
  ps.map (fun p =>
    if p.id == pid then
      { p with assigned := false, wasAssigned := true,
               unassignedTime := some now, unassignedBy := some byWhom }
    else p)

/-- POST /api/unassign-product.  unassignedBy is taken from the agentId
of the first matching active assignment, exactly as in the code. -/
def unassignProductCore (now : Int) (productId? : Option String)
    (s : ServerState) : Response × ServerState :=
  if isFalsyStr productId? then (.invalidArgument "Product ID is required", s)
  else
    let productId := productId?.getD ""
    match s.assignments.filter (fun a => a.productId == productId && !a.completed) with
    | [] => (.noActiveAssignmentForProduct, s)
    | firstMatch :: _ =>
      let products1 := setUnassigned now firstMatch.agentId productId s.products
      let assignments1 :=
        s.assignments.filter (fun a => !(a.productId == productId) || a.completed)
      (.unassignedProductOk productId,
       { s with products := products1, assignments := assignments1,
                agents := updateAgentAssignments products1 s.agents assignments1 })

/-- Product mutation of POST /api/unassign-agent: the code iterates the
agent currentAssignments tasks and writes the same field values into
each found product, which is the same as one id-keyed map (the writes
are constant per call, so repeats are idempotent). -/
def setUnassignedMany (now : Int) (byWhom : String) (pids : List String)
    (ps : List Product) : List Product :=
  ps.map (fun p =>
    if pids.contains p.id then
      { p with assigned := false, wasAssigned := true,
               unassignedTime := some now, unassignedBy := some byWhom }
    else p)

/-- POST /api/unassign-agent. -/
def unassignAgentCore (now : Int) (agentId? : Option String)
    (s : ServerState) : Response × ServerState :=
  if isFalsyStr agentId? then (.invalidArgument "Agent ID is required", s)
  else
    let agentId := agentId?.getD ""
    match s.agents.find? (fun a => a.id == agentId) with
    | none => (.agentNotFound, s)
    | some agent =>
      if agent.currentAssignments.length == 0 then (.agentNoTasks, s)
      else
        let products1 := setUnassignedMany now agentId agent.currentAssignments s.products
        let assignments1 :=
          s.assignments.filter (fun a => !(a.agentId == agentId) || a.completed)
        (.unassignedAgentOk agent.currentAssignments.length,
         { s with products := products1, assignments := assignments1,
                  agents := updateAgentAssignments products1 s.agents assignments1 })

/-- POST /api/unassign-all: every product referenced by a non-completed
assignment record is released with unassignedBy set to the literal
string "all"; the endpoint clears the agent arrays directly and does
not call updateAgentAssignments. -/
def unassignAllCore (now : Int) (s : ServerState) : Response × ServerState :=
  let totalActive := (s.assignments.filter (fun a => !a.completed)).length
  let products1 := s.products.map (fun p =>
    if s.assignments.any (fun a => !a.completed && a.productId == p.id) then
      { p with assigned := false, wasAssigned := true,
               unassignedTime := some now, unassignedBy := some "all" }
    else p)
  let assignments1 := s.assignments.filter (fun a => a.completed)
  (.unassignedAllOk totalActive,
   { s with products := products1, assignments := assignments1,
            agents := s.agents.map clearAssignments })

/-- The lifecycle operations of the claims, each tagged with the wall
clock value (and the fresh uuid of an assign) of the call. -/
inductive Op where
  | assign (now : Int) (newId : String) (agentId? : Option String)
  | complete (now : Int) (agentId? productId? : Option String)
  | unassignProduct (now : Int) (productId? : Option String)
  | unassignAgent (now : Int) (agentId? : Option String)
  | unassignAll (now : Int)

/-- State transition of one endpoint call. -/
def applyOp : Op → ServerState → ServerState
  | .assign now newId aid, s => (assignCore now newId aid s).2
  | .complete now aid pid, s => (completeCore now aid pid s).2
  | .unassignProduct now pid, s => (unassignProductCore now pid s).2
  | .unassignAgent now aid, s => (unassignAgentCore now aid s).2
  | .unassignAll now, s => (unassignAllCore now s).2

/-- Sequential execution of a list of endpoint calls. -/
def runOps (ops : List Op) (s : ServerState) : ServerState :=
  ops.foldl (fun t op => applyOp op t) s

/-- A CSV row as consumed by mergeProductsFromCsv: rowId is the
resolved abstract_product_id ("" when the row has none, the falsy
skip case). -/
structure CsvRow where
  rowId : String
  name : String
  priority : String
  tenantId : String
  createdOn : Int
  count : Int
  deriving Repr, DecidableEq

/-- createProductFromCsvRow of src/server.js: a fresh unassigned
product with empty assignment history. -/
def createProductFromCsvRow (r : CsvRow) : Product :=
  { id := r.rowId, name := r.name, priority := r.priority,
    tenantId := r.tenantId, createdOn := r.createdOn, count := r.count,
    assigned := false, wasAssigned := false,
    unassignedTime := none, unassignedBy := none }

/-- The findIndex-then-update-or-push body of the merge: walk to the
first product with the row id; replace it (preserving wasAssigned,
unassignedTime, unassignedBy) when it is not currently assigned, leave
it alone when it is; append a fresh product when no id matches. -/
def mergeInto : List Product → CsvRow → List Product
  | [], r => [createProductFromCsvRow r]
  | p :: rest, r =>
    if p.id == r.rowId then
      if p.assigned then p :: rest
      else
        { createProductFromCsvRow r with
            wasAssigned := p.wasAssigned,
            unassignedTime := p.unassignedTime,
            unassignedBy := p.unassignedBy } :: rest
    else p :: mergeInto rest r

/-- One row of the merge loop: rows without a product id are skipped. -/
def mergeStep (ps : List Product) (r : CsvRow) : List Product :=
  if r.rowId == "" then ps else mergeInto ps r

/-- mergeProductsFromCsv of src/server.js over the parsed rows. -/
def mergeProductsFromCsv (rows : List CsvRow) (ps : List Product) : List Product :=
  rows.foldl mergeStep ps

/-- Frame relation maintained by the merge loop between the original
product list and the current one: existing slots keep their ids,
assigned slots are untouched, unassigned slots keep their assignment
history, appended slots are fresh unassigned products with new ids. -/
def MergeRel (ps cur : List Product) : Prop :=
  ps.length ≤ cur.length ∧
  (∀ (i : Nat) (hi : i < ps.length) (hi2 : i < cur.length),
    cur[i].id = ps[i].id ∧
    (ps[i].assigned = true → cur[i] = ps[i]) ∧
    (ps[i].assigned = false →
      cur[i].assigned = false ∧
      cur[i].wasAssigned = ps[i].wasAssigned ∧
      cur[i].unassignedTime = ps[i].unassignedTime ∧
      cur[i].unassignedBy = ps[i].unassignedBy)) ∧
  (∀ (j : Nat) (hj : j < cur.length), ps.length ≤ j →
    cur[j].assigned = false ∧ cur[j].wasAssigned = false ∧
    cur[j].id ∉ ps.map (fun p => p.id))

/-! Concrete data used by the closed evaluation theorems. -/

/-- A fresh never-assigned product with the given id, priority class
and creation timestamp. -/
def testProduct (i : String) (prio : String) (created : Int) : Product :=
  { id := i, name := i, priority := prio, tenantId := "", createdOn := created,
    count := 1, assigned := false, wasAssigned := false,
    unassignedTime := none, unassignedBy := none }

def c2Agent : Agent :=
  { id := "ag", name := "Agent One", capacity := 1, currentAssignments := [] }

/-- Scenario of the spec: agent of capacity 1, X of class P2 created at
1, Y of class P1 created at 2, both available. -/
def c2State : ServerState :=
  { products := [testProduct "X" "P2" 1, testProduct "Y" "P1" 2],
    agents := [c2Agent], assignments := [], completedAssignments := [] }

def c1Agent : Agent :=
  { id := "ag", name := "Agent One", capacity := 3, currentAssignments := [] }

def c1State : ServerState :=
  { products := [testProduct "A" "P3" 0, testProduct "B" "P3" 5],
    agents := [c1Agent], assignments := [], completedAssignments := [] }

/-- Assign A and B, complete A (leaving wasAssigned true and no
unassignedTime), then unassign B at time 13. -/
def c1Ops : List Op :=
  [ .assign 10 "as1" (some "ag"), .assign 11 "as2" (some "ag"),
    .complete 12 (some "ag") (some "A"), .unassignProduct 13 (some "B") ]

def c1wState : ServerState :=
  { products :=
      [ { testProduct "B1" "P3" 0 with wasAssigned := true, unassignedTime := some 13 },
        { testProduct "B2" "P3" 1 with wasAssigned := true, unassignedTime := some 7 },
        testProduct "N" "P1" 0 ],
    agents := [c1Agent], assignments := [], completedAssignments := [] }

def c8Agent : Agent :=
  { id := "a1", name := "Alice", capacity := 2, currentAssignments := ["p1"] }

def c8Product : Product :=
  { testProduct "p1" "P2" 0 with assigned := true, wasAssigned := true }

def c8Assignment : Assignment :=
  { id := "s1", agentId := "a1", productId := "p1", assignedOn := 1,
    completed := false, completedOn := none }

def c8State : ServerState :=
  { products := [c8Product], agents := [c8Agent],
    assignments := [c8Assignment], completedAssignments := [] }

/-- The p1 product as each unassign variant leaves it: released, with
the recorded time and the recorded releaser. -/
def c8Unassigned (t : Int) (byWhom : String) : Product :=
  { testProduct "p1" "P2" 0 with
      wasAssigned := true, unassignedTime := some t, unassignedBy := some byWhom }

def c4Agent : Agent :=
  { id := "ag", name := "Agent One", capacity := 1, currentAssignments := [] }

def c4State : ServerState :=
  { products := [testProduct "W" "P3" 0], agents := [c4Agent],
    assignments := [], completedAssignments := [] }

def c4Ops : List Op := [.assign 5 "w1" (some "ag")]

def c5EmptyState : ServerState :=
  { products := [], agents := [c4Agent], assignments := [],
    completedAssignments := [] }

def c7State : ServerState :=
  { products := [testProduct "W" "P3" 0], agents := [c4Agent],
    assignments := [],
    completedAssignments :=
      [{ id := "s1", agentId := "ag", productId := "W", assignedOn := 1,
         completed := true, completedOn := some 2 }] }

def c10Agent : Agent :=
  { id := "ag", name := "Agent One", capacity := 2, currentAssignments := [] }

def c10State : ServerState :=
  { products := [testProduct "C" "P3" 0, testProduct "N" "P1" 1],
    agents := [c10Agent], assignments := [], completedAssignments := [] }

/-- c10State after assigning C (the priority comparator puts P3 C ahead
of P1 N because of the falsy-zero fallback, but any chosen product
works here). -/
def c10Mid : ServerState := (assignCore 1 "x1" (some "ag") c10State).2

/-- c10Mid after completing C: C is available again with wasAssigned
true and no unassignedTime, N is still never-assigned P1. -/
def c10After : ServerState := (completeCore 2 (some "ag") (some "C") c10Mid).2

def c9Products : List Product :=
  [ { testProduct "E1" "P2" 0 with assigned := true, wasAssigned := true },
    { testProduct "E2" "P3" 1 with
        wasAssigned := true, unassignedTime := some 4, unassignedBy := some "a1" } ]

def c9Rows : List CsvRow :=
  [ { rowId := "E1", name := "E1 fresh", priority := "P1", tenantId := "t",
      createdOn := 9, count := 2 },
    { rowId := "E2", name := "E2 fresh", priority := "P1", tenantId := "t",
      createdOn := 9, count := 2 },
    { rowId := "F", name := "F new", priority := "P2", tenantId := "t",
      createdOn := 9, count := 1 } ]

/-! ### Lemmas about the stable sort -/

theorem mem_insertSorted (le : α → α → Bool) (x : α) :
    ∀ (l : List α) (a : α), a ∈ insertSorted le x l ↔ a = x ∨ a ∈ l := by
  intro l
  induction l with
  | nil => intro a; simp [insertSorted]
  | cons y ys ih =>
    intro a
    cases h : le x y with
    | true => simp [insertSorted, h]
    | false => simp [insertSorted, h, ih]; tauto

theorem mem_jsSortBy (cmp : α → α → Int) :
    ∀ (l : List α) (a : α), a ∈ jsSortBy cmp l ↔ a ∈ l := by
  intro l
  induction l with
  | nil => intro a; simp [jsSortBy]
  | cons x xs ih =>
    intro a
    show a ∈ insertSorted _ x (jsSortBy cmp xs) ↔ _
    rw [mem_insertSorted]
    simp [ih]

/-- Head-minimality of one insertion step, for a comparator that agrees
with a numeric key on elements satisfying P. -/
theorem insertSorted_head_min (le : α → α → Bool) (key : α → Int) (P : α → Prop)
    (hcons : ∀ a b, P a → P b → (le a b = true ↔ key a ≤ key b))
    (x : α) (l : List α) (hx : P x) (hl : ∀ a ∈ l, P a)
    (hmin : ∀ h t, l = h :: t → ∀ a ∈ l, key h ≤ key a) :
    ∀ h t, insertSorted le x l = h :: t → ∀ a ∈ insertSorted le x l, key h ≤ key a := by
  cases l with
  | nil =>
    intro h t hht a ha
    simp [insertSorted] at hht ha
    simp [hht.1, ha]
  | cons y ys =>
    intro h t hht a ha
    cases hle : le x y with
    | true =>
      simp only [insertSorted, hle, if_true] at hht ha
      have hxy : key x ≤ key y := (hcons x y hx (hl y (by simp))).mp hle
      have hh : h = x := ((List.cons_eq_cons.mp hht).1).symm
      rw [hh]
      rcases List.mem_cons.mp ha with rfl | ha
      · exact le_refl _
      · rcases List.mem_cons.mp ha with rfl | ha
        · exact hxy
        · exact le_trans hxy (hmin y ys rfl a (by simp [ha]))
    | false =>
      simp only [insertSorted, hle, Bool.false_eq_true, if_false] at hht ha
      have hyx : key y ≤ key x := by
        have h1 : ¬ (key x ≤ key y) := by
          intro hc
          have := (hcons x y hx (hl y (by simp))).mpr hc
          rw [hle] at this
          exact Bool.false_ne_true this
        omega
      have hh : h = y := ((List.cons_eq_cons.mp hht).1).symm
      rw [hh]
      rcases List.mem_cons.mp ha with rfl | ha
      · exact le_refl _
      · rcases (mem_insertSorted le x ys a).mp ha with rfl | ha
        · exact hyx
        · exact hmin y ys rfl a (by simp [ha])

/-- The head of the modelled Array.prototype.sort has the minimal key
whenever the comparator agrees with the key on the list. -/
theorem jsSortBy_head_min (cmp : α → α → Int) (key : α → Int) (P : α → Prop)
    (hcons : ∀ a b, P a → P b → (cmp a b ≤ 0 ↔ key a ≤ key b)) :
    ∀ (l : List α), (∀ a ∈ l, P a) →
      ∀ h t, jsSortBy cmp l = h :: t → ∀ a ∈ l, key h ≤ key a := by
  have hcons' : ∀ a b, P a → P b →
      ((fun a b => decide (cmp a b ≤ 0)) a b = true ↔ key a ≤ key b) := by
    intro a b ha hb
    simp only [decide_eq_true_eq]
    exact hcons a b ha hb
  intro l
  induction l with
  | nil => intro _ h t hht; simp [jsSortBy] at hht
  | cons x xs ih =>
    intro hP h t hht a ha
    have hxs : ∀ a ∈ xs, P a := fun a ha => hP a (by simp [ha])
    have hsortP : ∀ a ∈ jsSortBy cmp xs, P a := fun a ha =>
      hxs a ((mem_jsSortBy cmp xs a).mp ha)
    have hminxs : ∀ h t, jsSortBy cmp xs = h :: t →
        ∀ a ∈ jsSortBy cmp xs, key h ≤ key a := by
      intro h t hht a ha
      exact ih hxs h t hht a ((mem_jsSortBy cmp xs a).mp ha)
    have hstep := insertSorted_head_min (fun a b => decide (cmp a b ≤ 0)) key P hcons'
      x (jsSortBy cmp xs) (hP x (by simp)) hsortP hminxs h t hht
    have hmem : a ∈ insertSorted (fun a b => decide (cmp a b ≤ 0)) x (jsSortBy cmp xs) := by
      rw [mem_insertSorted]
      rcases List.mem_cons.mp ha with rfl | ha
      · exact Or.inl rfl
      · exact Or.inr ((mem_jsSortBy cmp xs a).mpr ha)
    exact hstep a hmem

/-! ### Characterisation of updateAgentAssignments -/

/-- The list of productIds that updateAgentAssignments accumulates for
the agent with id i: productIds of assignment records for that agent
whose product exists in the store. -/
def activeFor (ps : List Product) (i : String) (asgs : List Assignment) : List String :=
  (asgs.filter (fun a => i == a.agentId && ps.any (fun p => p.id == a.productId))).map
    (fun a => a.productId)

theorem pushAssignment_map_id (aid pid : String) :
    ∀ ags, (pushAssignment ags aid pid).map (fun ag => ag.id) = ags.map (fun ag => ag.id) := by
  intro ags
  induction ags with
  | nil => rfl
  | cons ag rest ih =>
    by_cases h : ag.id == aid
    · simp [pushAssignment, h]
    · simp only [pushAssignment, if_neg h, List.map_cons, ih]

theorem pushAssignment_eq_map (aid pid : String) :
    ∀ ags, ((ags.map (fun ag => ag.id)).Nodup) →
      pushAssignment ags aid pid = ags.map (fun ag =>
        if ag.id == aid then
          { ag with currentAssignments := ag.currentAssignments ++ [pid] }
        else ag) := by
  intro ags
  induction ags with
  | nil => intro _; rfl
  | cons ag rest ih =>
    intro hnd
    rw [List.map_cons] at hnd
    have hni := (List.nodup_cons.mp hnd).1
    have hndr := (List.nodup_cons.mp hnd).2
    by_cases h : ag.id == aid
    · have haid : aid = ag.id := (beq_iff_eq.mp h).symm
      have hrest : rest.map (fun x =>
          if x.id == aid then
            { x with currentAssignments := x.currentAssignments ++ [pid] }
          else x) = rest := by
        have hcong : ∀ x ∈ rest, (if x.id == aid then
            { x with currentAssignments := x.currentAssignments ++ [pid] }
          else x) = (fun x => x) x := by
          intro x hx
          have hxid : x.id ≠ aid := by
            intro hc
            apply hni
            have hm : x.id ∈ rest.map (fun a => a.id) := List.mem_map_of_mem (fun a => a.id) hx
            rw [hc, haid] at hm
            exact hm
          simp [hxid]
        rw [List.map_congr_left hcong, List.map_id']
      simp only [pushAssignment, if_pos h, List.map_cons, if_pos h, hrest]
    · simp only [pushAssignment, if_neg h, List.map_cons, if_neg h, ih hndr]

theorem updateLoop_eq (ps : List Product) :
    ∀ (asgs : List Assignment) (ags : List Agent),
      ((ags.map (fun ag => ag.id)).Nodup) →
      updateLoop ps ags asgs = ags.map (fun ag =>
        { ag with currentAssignments := ag.currentAssignments ++ activeFor ps ag.id asgs }) := by
  intro asgs
  induction asgs with
  | nil =>
    intro ags _
    simp [updateLoop, activeFor]
  | cons a rest ih =>
    intro ags hnd
    by_cases hpe : ps.any (fun p => p.id == a.productId)
    · have hstep : updateLoop ps ags (a :: rest) =
          updateLoop ps (pushAssignment ags a.agentId a.productId) rest := by
        simp [updateLoop, hpe]
      rw [hstep, ih _ (by rw [pushAssignment_map_id]; exact hnd),
          pushAssignment_eq_map _ _ _ hnd, List.map_map]
      apply List.map_congr_left
      intro ag _
      by_cases hagid : ag.id == a.agentId
      · have hfa : activeFor ps ag.id (a :: rest) = a.productId :: activeFor ps ag.id rest := by
          simp [activeFor, List.filter_cons, hagid, hpe]
        simp only [Function.comp, if_pos hagid, hfa]
        show ({ ag with currentAssignments := (ag.currentAssignments ++ [a.productId]) ++ activeFor ps ag.id rest } : Agent) =
          { ag with currentAssignments := ag.currentAssignments ++ (a.productId :: activeFor ps ag.id rest) }
        rw [List.append_assoc, List.singleton_append]
      · have hfa : activeFor ps ag.id (a :: rest) = activeFor ps ag.id rest := by
          simp only [activeFor, List.filter_cons]
          rw [if_neg]
          simp [hagid]
        simp only [Function.comp, if_neg hagid, hfa]
    · have hstep : updateLoop ps ags (a :: rest) = updateLoop ps ags rest := by
        simp [updateLoop, hpe]
      rw [hstep, ih _ hnd]
      apply List.map_congr_left
      intro ag _
      have hfa : activeFor ps ag.id (a :: rest) = activeFor ps ag.id rest := by
        simp only [activeFor, List.filter_cons]
        rw [if_neg]
        simp [hpe]
      rw [hfa]

theorem clearAssignments_map_id (ags : List Agent) :
    (ags.map clearAssignments).map (fun ag => ag.id) = ags.map (fun ag => ag.id) := by
  rw [List.map_map]
  rfl

/-- With distinct agent ids, updateAgentAssignments gives every agent
exactly the productIds of its surviving assignment records (of existing
products), replacing whatever was cached before. -/
theorem updateAgentAssignments_eq (ps : List Product) (ags : List Agent)
    (asgs : List Assignment) (hnd : (ags.map (fun ag => ag.id)).Nodup) :
    updateAgentAssignments ps ags asgs =
      ags.map (fun ag => { ag with currentAssignments := activeFor ps ag.id asgs }) := by
  rw [updateAgentAssignments, updateLoop_eq ps asgs _ (by rw [clearAssignments_map_id]; exact hnd),
      List.map_map]
  apply List.map_congr_left
  intro ag _
  rfl

/-! ### State invariant and its preservation -/

theorem contains_false_iff {l : List String} {x : String} :
    l.contains x = false ↔ x ∉ l := by
  rw [List.contains_eq_any_beq]
  simp only [Bool.eq_false_iff, ne_eq, List.any_eq_true, beq_iff_eq, not_exists, not_and]
  exact ⟨fun h hx => h x hx rfl, fun h y hy hxy => h (hxy ▸ hy)⟩

theorem any_id_map (f : Product → Product) (hf : ∀ p, (f p).id = p.id)
    (ps : List Product) (x : String) :
    (ps.map f).any (fun p => p.id == x) = ps.any (fun p => p.id == x) := by
  induction ps with
  | nil => rfl
  | cons p rest ih => simp only [List.map_cons, List.any_cons, hf p, ih]

theorem activeFor_map_products (f : Product → Product) (hf : ∀ p, (f p).id = p.id)
    (ps : List Product) (i : String) (asgs : List Assignment) :
    activeFor (ps.map f) i asgs = activeFor ps i asgs := by
  unfold activeFor
  congr 1
  apply List.filter_congr
  intro a _
  rw [any_id_map f hf]

theorem activeFor_length_le_of_sublist {asgs₂ asgs₁ : List Assignment}
    (h : List.Sublist asgs₂ asgs₁) (ps : List Product) (i : String) :
    (activeFor ps i asgs₂).length ≤ (activeFor ps i asgs₁).length := by
  unfold activeFor
  exact ((h.filter _).map _).length_le

theorem activeFor_append (ps : List Product) (i : String)
    (l₁ l₂ : List Assignment) :
    activeFor ps i (l₁ ++ l₂) = activeFor ps i l₁ ++ activeFor ps i l₂ := by
  unfold activeFor
  rw [List.filter_append, List.map_append]

theorem setAssignedFlags_eq_activeFor (pid : String) (ps : List Product)
    (i : String) (asgs : List Assignment) :
    activeFor (setAssignedFlags pid ps) i asgs = activeFor ps i asgs := by
  apply activeFor_map_products
  intro p
  by_cases h : p.id == pid <;> simp [h]

theorem setCompleted_eq_activeFor (pid : String) (ps : List Product)
    (i : String) (asgs : List Assignment) :
    activeFor (setCompleted pid ps) i asgs = activeFor ps i asgs := by
  apply activeFor_map_products
  intro p
  by_cases h : p.id == pid <;> simp [h]

theorem setUnassigned_eq_activeFor (now : Int) (byWhom pid : String)
    (ps : List Product) (i : String) (asgs : List Assignment) :
    activeFor (setUnassigned now byWhom pid ps) i asgs = activeFor ps i asgs := by
  apply activeFor_map_products
  intro p
  by_cases h : p.id == pid <;> simp [h]

theorem setUnassignedMany_eq_activeFor (now : Int) (byWhom : String)
    (pids : List String) (ps : List Product) (i : String) (asgs : List Assignment) :
    activeFor (setUnassignedMany now byWhom pids ps) i asgs = activeFor ps i asgs := by
  apply activeFor_map_products
  intro p
  by_cases h : p.id ∈ pids <;> simp [h]

/-- The invariant maintained by every endpoint, from any sane start:
distinct productIds across the assignments array, only non-completed
records in it, distinct agent ids, cached agent arrays equal to their
recompute, and no agent over capacity. -/
def Inv (s : ServerState) : Prop :=
  (assignedProductIds s).Nodup ∧
  (∀ a ∈ s.assignments, a.completed = false) ∧
  ((s.agents.map (fun ag => ag.id)).Nodup) ∧
  s.agents = updateAgentAssignments s.products s.agents s.assignments ∧
  (∀ ag ∈ s.agents, ag.currentAssignments.length ≤ ag.capacity)

/-- A sane boot state: no assignment records yet, distinct agent ids,
all cached agent arrays empty (what loadData produces on first boot
before any assignment exists). -/
def goodInit (s : ServerState) : Prop :=
  s.assignments = [] ∧
  ((s.agents.map (fun ag => ag.id)).Nodup) ∧
  (∀ ag ∈ s.agents, ag.currentAssignments = [])

theorem updateAgentAssignments_fix (ps : List Product) (ags : List Agent)
    (asgs : List Assignment) (hnd : (ags.map (fun ag => ag.id)).Nodup) :
    updateAgentAssignments ps (updateAgentAssignments ps ags asgs) asgs =
      updateAgentAssignments ps ags asgs := by
  have hnd2 : ((updateAgentAssignments ps ags asgs).map (fun ag => ag.id)).Nodup := by
    rw [updateAgentAssignments_eq _ _ _ hnd, List.map_map]
    exact hnd
  rw [updateAgentAssignments_eq _ _ _ hnd2, updateAgentAssignments_eq _ _ _ hnd,
      List.map_map]
  apply List.map_congr_left
  intro ag _
  rfl

theorem stored_eq_activeFor {s : ServerState}
    (hnd : (s.agents.map (fun ag => ag.id)).Nodup)
    (hcons : s.agents = updateAgentAssignments s.products s.agents s.assignments)
    {ag : Agent} (hag : ag ∈ s.agents) :
    ag.currentAssignments = activeFor s.products ag.id s.assignments := by
  rw [updateAgentAssignments_eq _ _ _ hnd] at hcons
  have hm : ag ∈ s.agents.map (fun ag =>
      { ag with currentAssignments := activeFor s.products ag.id s.assignments }) :=
    hcons ▸ hag
  rcases List.mem_map.mp hm with ⟨b, _, hfb⟩
  rw [← hfb]

theorem inv_goodInit (s : ServerState) (h : goodInit s) : Inv s := by
  obtain ⟨hasg, hnd, hcur⟩ := h
  refine ⟨?_, ?_, hnd, ?_, ?_⟩
  · rw [assignedProductIds, hasg]; exact List.nodup_nil
  · intro a ha; rw [hasg] at ha; cases ha
  · rw [hasg]
    show s.agents = s.agents.map clearAssignments
    have : ∀ ag ∈ s.agents, clearAssignments ag = (fun x => x) ag := by
      intro ag hag
      have := hcur ag hag
      cases ag
      simp only [clearAssignments] at this ⊢
      simp_all
    rw [List.map_congr_left this, List.map_id']
  · intro ag hag
    rw [hcur ag hag]
    exact Nat.zero_le _

theorem updateAgentAssignments_map_id (ps : List Product) (ags : List Agent)
    (asgs : List Assignment) (hnd : (ags.map (fun ag => ag.id)).Nodup) :
    (updateAgentAssignments ps ags asgs).map (fun ag => ag.id) =
      ags.map (fun ag => ag.id) := by
  rw [updateAgentAssignments_eq _ _ _ hnd, List.map_map]
  rfl

theorem activeFor_singleton (ps : List Product) (i : String) (a : Assignment) :
    activeFor ps i [a] =
      if (i == a.agentId && ps.any (fun p => p.id == a.productId)) then [a.productId]
      else [] := by
  by_cases h : (i == a.agentId && ps.any (fun p => p.id == a.productId)) = true
  · simp [activeFor, List.filter_cons, h]
  · simp only [Bool.not_eq_true] at h
    simp [activeFor, List.filter_cons, h]

theorem mem_wasAssignedCandidates {s : ServerState} {p : Product} :
    p ∈ wasAssignedCandidates s ↔
      p ∈ s.products ∧ p.assigned = false ∧ p.id ∉ assignedProductIds s ∧
        p.wasAssigned = true := by
  simp only [wasAssignedCandidates, List.mem_filter, Bool.and_eq_true,
    Bool.not_eq_true', contains_false_iff]
  tauto

theorem mem_neverAssignedCandidates {s : ServerState} {p : Product} :
    p ∈ neverAssignedCandidates s ↔
      p ∈ s.products ∧ p.assigned = false ∧ p.id ∉ assignedProductIds s ∧
        p.wasAssigned = false := by
  simp only [neverAssignedCandidates, List.mem_filter, Bool.and_eq_true,
    Bool.not_eq_true', contains_false_iff]
  tauto

theorem assign_chosen_mem {s : ServerState} {chosen : Product} {rest : List Product}
    (hmatch : (if (jsSortBy cmpWasAssigned (wasAssignedCandidates s)).isEmpty
        then jsSortBy cmpNeverAssigned (neverAssignedCandidates s)
        else jsSortBy cmpWasAssigned (wasAssignedCandidates s)) = chosen :: rest) :
    chosen ∈ wasAssignedCandidates s ∨ chosen ∈ neverAssignedCandidates s := by
  by_cases hb : (jsSortBy cmpWasAssigned (wasAssignedCandidates s)).isEmpty
  · rw [if_pos hb] at hmatch
    right
    rw [← mem_jsSortBy cmpNeverAssigned, hmatch]
    simp
  · rw [if_neg hb] at hmatch
    left
    rw [← mem_jsSortBy cmpWasAssigned, hmatch]
    simp

theorem inv_assignCore (now : Int) (newId : String) (aid? : Option String)
    (s : ServerState) (hInv : Inv s) : Inv (assignCore now newId aid? s).2 := by
  obtain ⟨hNP, hAO, hNA, hC, hK⟩ := hInv
  simp only [assignCore]
  split
  · exact ⟨hNP, hAO, hNA, hC, hK⟩
  · split
    · exact ⟨hNP, hAO, hNA, hC, hK⟩
    · next agent hfind =>
      split
      · exact ⟨hNP, hAO, hNA, hC, hK⟩
      · next hcap =>
        split
        · exact ⟨hNP, hAO, hNA, hC, hK⟩
        · next chosen rest hmatch =>
          have hchosen := assign_chosen_mem hmatch
          have hmemP : chosen ∈ s.products := by
            rcases hchosen with h | h
            · exact (mem_wasAssignedCandidates.mp h).1
            · exact (mem_neverAssignedCandidates.mp h).1
          have hnotin : chosen.id ∉ assignedProductIds s := by
            rcases hchosen with h | h
            · exact (mem_wasAssignedCandidates.mp h).2.2.1
            · exact (mem_neverAssignedCandidates.mp h).2.2.1
          have hany : s.products.any (fun p => p.id == chosen.id) = true :=
            List.any_eq_true.mpr ⟨chosen, hmemP, by simp⟩
          have hagentmem : agent ∈ s.agents := List.mem_of_find?_eq_some hfind
          have hstored : agent.currentAssignments =
              activeFor s.products agent.id s.assignments :=
            stored_eq_activeFor hNA hC hagentmem
          have hlt : agent.currentAssignments.length < agent.capacity :=
            Nat.lt_of_not_le hcap
          refine ⟨?_, ?_, ?_, ?_, ?_⟩
          · simp only [assignedProductIds, List.map_append, List.map_cons, List.map_nil]
            rw [List.nodup_append]
            simp only [assignedProductIds] at hNP
            refine ⟨hNP, List.nodup_singleton _, ?_⟩
            intro x hx hx1
            simp only [List.mem_singleton] at hx1
            exact hnotin (hx1 ▸ hx)
          · intro a ha
            simp only at ha
            rcases List.mem_append.mp ha with h | h
            · exact hAO a h
            · simp only [List.mem_singleton] at h
              rw [h]
          · show ((updateAgentAssignments _ s.agents _).map (fun ag => ag.id)).Nodup
            rw [updateAgentAssignments_map_id _ _ _ hNA]
            exact hNA
          · show updateAgentAssignments _ s.agents _ =
              updateAgentAssignments _ (updateAgentAssignments _ s.agents _) _
            exact (updateAgentAssignments_fix _ _ _ hNA).symm
          · intro ag' hag'
            simp only at hag'
            rw [updateAgentAssignments_eq _ _ _ hNA] at hag'
            rcases List.mem_map.mp hag' with ⟨ag₀, hag₀, rfl⟩
            simp only
            rw [setAssignedFlags_eq_activeFor, activeFor_append, activeFor_singleton,
                List.length_append]
            by_cases hid : ag₀.id == agent.id
            · have hag₀eq : ag₀ = agent :=
                List.inj_on_of_nodup_map hNA hag₀ hagentmem (beq_iff_eq.mp hid)
              rw [if_pos (by simp only [hid, any_id_map (fun p =>
                    if p.id == chosen.id then
                      { p with assigned := true, wasAssigned := true,
                               unassignedTime := none, unassignedBy := none }
                    else p) (fun p => by by_cases h : p.id == chosen.id <;> simp [h]) s.products,
                  hany, Bool.and_self])]
              rw [hag₀eq, ← hstored]
              simpa using hlt
            · rw [if_neg (by simp [hid])]
              simp only [List.length_nil, Nat.add_zero]
              rw [← stored_eq_activeFor hNA hC hag₀]
              exact hK ag₀ hag₀

theorem inv_completeCore (now : Int) (aid? pid? : Option String)
    (s : ServerState) (hInv : Inv s) : Inv (completeCore now aid? pid? s).2 := by
  obtain ⟨hNP, hAO, hNA, hC, hK⟩ := hInv
  simp only [completeCore]
  split
  · exact ⟨hNP, hAO, hNA, hC, hK⟩
  · split
    · exact ⟨hNP, hAO, hNA, hC, hK⟩
    · split
      · exact ⟨hNP, hAO, hNA, hC, hK⟩
      · next idx hidx =>
        split
        · exact ⟨hNP, hAO, hNA, hC, hK⟩
        · next asg hget =>
          have hsub : List.Sublist (s.assignments.eraseIdx idx) s.assignments :=
            List.eraseIdx_sublist _ _
          refine ⟨?_, ?_, ?_, ?_, ?_⟩
          · simp only [assignedProductIds] at hNP ⊢
            exact List.Nodup.sublist (hsub.map _) hNP
          · intro a ha
            simp only at ha
            exact hAO a (List.Sublist.mem ha hsub)
          · show ((updateAgentAssignments _ s.agents _).map (fun ag => ag.id)).Nodup
            rw [updateAgentAssignments_map_id _ _ _ hNA]
            exact hNA
          · show updateAgentAssignments _ s.agents _ =
              updateAgentAssignments _ (updateAgentAssignments _ s.agents _) _
            exact (updateAgentAssignments_fix _ _ _ hNA).symm
          · intro ag' hag'
            simp only at hag'
            rw [updateAgentAssignments_eq _ _ _ hNA] at hag'
            rcases List.mem_map.mp hag' with ⟨ag₀, hag₀, rfl⟩
            simp only
            rw [setCompleted_eq_activeFor]
            calc (activeFor s.products ag₀.id (s.assignments.eraseIdx idx)).length
                ≤ (activeFor s.products ag₀.id s.assignments).length :=
                  activeFor_length_le_of_sublist hsub _ _
              _ = ag₀.currentAssignments.length := by
                  rw [← stored_eq_activeFor hNA hC hag₀]
              _ ≤ ag₀.capacity := hK ag₀ hag₀

theorem inv_unassignProductCore (now : Int) (pid? : Option String)
    (s : ServerState) (hInv : Inv s) : Inv (unassignProductCore now pid? s).2 := by
  obtain ⟨hNP, hAO, hNA, hC, hK⟩ := hInv
  simp only [unassignProductCore]
  split
  · exact ⟨hNP, hAO, hNA, hC, hK⟩
  · split
    · exact ⟨hNP, hAO, hNA, hC, hK⟩
    · next firstMatch restMatch hfil =>
      have hsub : List.Sublist
          (s.assignments.filter
            (fun a => !(a.productId == pid?.getD "") || a.completed)) s.assignments :=
        List.filter_sublist _
      refine ⟨?_, ?_, ?_, ?_, ?_⟩
      · simp only [assignedProductIds] at hNP ⊢
        exact List.Nodup.sublist (hsub.map _) hNP
      · intro a ha
        simp only at ha
        exact hAO a (List.Sublist.mem ha (List.filter_sublist _))
      · show ((updateAgentAssignments _ s.agents _).map (fun ag => ag.id)).Nodup
        rw [updateAgentAssignments_map_id _ _ _ hNA]
        exact hNA
      · show updateAgentAssignments _ s.agents _ =
          updateAgentAssignments _ (updateAgentAssignments _ s.agents _) _
        exact (updateAgentAssignments_fix _ _ _ hNA).symm
      · intro ag' hag'
        simp only at hag'
        rw [updateAgentAssignments_eq _ _ _ hNA] at hag'
        rcases List.mem_map.mp hag' with ⟨ag₀, hag₀, rfl⟩
        simp only
        rw [setUnassigned_eq_activeFor]
        calc (activeFor s.products ag₀.id _).length
            ≤ (activeFor s.products ag₀.id s.assignments).length :=
              activeFor_length_le_of_sublist (List.filter_sublist _) _ _
          _ = ag₀.currentAssignments.length := by
              rw [← stored_eq_activeFor hNA hC hag₀]
          _ ≤ ag₀.capacity := hK ag₀ hag₀

theorem inv_unassignAgentCore (now : Int) (aid? : Option String)
    (s : ServerState) (hInv : Inv s) : Inv (unassignAgentCore now aid? s).2 := by
  obtain ⟨hNP, hAO, hNA, hC, hK⟩ := hInv
  simp only [unassignAgentCore]
  split
  · exact ⟨hNP, hAO, hNA, hC, hK⟩
  · split
    · exact ⟨hNP, hAO, hNA, hC, hK⟩
    · next agent hfind =>
      split
      · exact ⟨hNP, hAO, hNA, hC, hK⟩
      · refine ⟨?_, ?_, ?_, ?_, ?_⟩
        · simp only [assignedProductIds] at hNP ⊢
          exact List.Nodup.sublist ((List.filter_sublist _).map _) hNP
        · intro a ha
          simp only at ha
          exact hAO a (List.Sublist.mem ha (List.filter_sublist _))
        · show ((updateAgentAssignments _ s.agents _).map (fun ag => ag.id)).Nodup
          rw [updateAgentAssignments_map_id _ _ _ hNA]
          exact hNA
        · show updateAgentAssignments _ s.agents _ =
            updateAgentAssignments _ (updateAgentAssignments _ s.agents _) _
          exact (updateAgentAssignments_fix _ _ _ hNA).symm
        · intro ag' hag'
          simp only at hag'
          rw [updateAgentAssignments_eq _ _ _ hNA] at hag'
          rcases List.mem_map.mp hag' with ⟨ag₀, hag₀, rfl⟩
          simp only
          rw [setUnassignedMany_eq_activeFor]
          calc (activeFor s.products ag₀.id _).length
              ≤ (activeFor s.products ag₀.id s.assignments).length :=
                activeFor_length_le_of_sublist (List.filter_sublist _) _ _
            _ = ag₀.currentAssignments.length := by
                rw [← stored_eq_activeFor hNA hC hag₀]
            _ ≤ ag₀.capacity := hK ag₀ hag₀

theorem inv_unassignAllCore (now : Int) (s : ServerState) (hInv : Inv s) :
    Inv (unassignAllCore now s).2 := by
  obtain ⟨hNP, hAO, hNA, hC, hK⟩ := hInv
  have hfil : s.assignments.filter (fun a => a.completed) = [] :=
    List.filter_eq_nil_iff.mpr (fun a ha => by simp [hAO a ha])
  simp only [unassignAllCore]
  refine ⟨?_, ?_, ?_, ?_, ?_⟩
  · simp only [assignedProductIds, hfil, List.map_nil]
    exact List.nodup_nil
  · intro a ha
    simp only [hfil] at ha
    cases ha
  · show ((s.agents.map clearAssignments).map (fun ag => ag.id)).Nodup
    rw [List.map_map]
    exact hNA
  · show s.agents.map clearAssignments = updateAgentAssignments _ (s.agents.map clearAssignments) _
    rw [hfil]
    show s.agents.map clearAssignments = (s.agents.map clearAssignments).map clearAssignments
    rw [List.map_map]
    rfl
  · intro ag' hag'
    simp only at hag'
    rcases List.mem_map.mp hag' with ⟨ag₀, _, rfl⟩
    simp [clearAssignments]

theorem inv_applyOp (op : Op) (s : ServerState) (hInv : Inv s) : Inv (applyOp op s) := by
  cases op with
  | assign now newId aid => exact inv_assignCore now newId aid s hInv
  | complete now aid pid => exact inv_completeCore now aid pid s hInv
  | unassignProduct now pid => exact inv_unassignProductCore now pid s hInv
  | unassignAgent now aid => exact inv_unassignAgentCore now aid s hInv
  | unassignAll now => exact inv_unassignAllCore now s hInv

/-- The invariant holds in every state reachable from a sane boot state
by any sequence of endpoint calls. -/
theorem inv_runOps (ops : List Op) (s : ServerState) (hInv : Inv s) :
    Inv (runOps ops s) := by
  induction ops generalizing s with
  | nil => exact hInv
  | cons op rest ih =>
    show Inv (runOps rest (applyOp op s))
    exact ih _ (inv_applyOp op s hInv)

/-! ### Claim theorems -/

/-- C6: while the assignmentInProgress flag is set, any call to the
assign endpoint returns the retryable 409 busy response at once, with
the flag, the whole server state, and the response independent of and
untouched by the request: the lock is a non-blocking try-lock. -/
theorem C6_lock_nonblocking (now : Int) (newId : String) (aid? : Option String)
    (s : ServerState) :
    assignEndpoint true now newId aid? s = (Response.busy, s, true) ∧
    httpStatus Response.busy = 409 :=
  ⟨rfl, rfl⟩

/-- C2: the spec scenario fails on the code.  With agent capacity 1 and
available items X (P2, created 1) and Y (P1, created 2), the assign
endpoint hands out X, not Y: priorityMap maps P1 to 0, and the JS
fallback expression priorityMap[p] || 999 treats 0 as falsy, so P1
collapses to 999 and sorts after P2 and P3.  The second call before any
completion does return the capacity error, as claimed. -/
theorem C2_priority_bug :
    (assignCore 10 "as1" (some "ag") c2State).1 =
      Response.assigned { id := "as1", agentId := "ag", productId := "X",
                          assignedOn := 10, completed := false, completedOn := none } ∧
    (assignCore 11 "as2" (some "ag") (assignCore 10 "as1" (some "ag") c2State).2).1 =
      Response.capacityExceeded ∧
    jsOrNum (priorityLookup "P1") 999 = 999 ∧
    jsOrNum (priorityLookup "P2") 999 = 1 ∧
    jsOrNum (priorityLookup "P3") 999 = 2 := by
  decide

/-- C1 counterexample: after assigning and completing A (which leaves
wasAssigned true but no unassignedTime) and assigning and unassigning B
at time 13, the set of available previously-unassigned products with a
recorded unassignment time is exactly B and is non-empty, yet the next
assign call picks A, which is not in that set: the precedence bucket is
keyed on wasAssigned alone, and A with its null unassignedTime wins the
createdOn fallback comparison. -/
theorem C1_counterexample :
    ((runOps c1Ops c1State).products.filter
        (fun p => !p.assigned && p.wasAssigned && p.unassignedTime.isSome)).map
        (fun p => p.id) = ["B"] ∧
    (assignCore 14 "as3" (some "ag") (runOps c1Ops c1State)).1 =
      Response.assigned { id := "as3", agentId := "ag", productId := "A",
                          assignedOn := 14, completed := false, completedOn := none } ∧
    ("A" : String) ≠ "B" := by
  decide

/-- C8 counterexample: the unassign-product endpoint stamps the product
with the agent id of the releasing assignment, not the agent name: with
agent id a1 named Alice holding p1, unassigning p1 records unassignedBy
= a1 while the agent name is Alice. -/
theorem C8_counterexample :
    ((unassignProductCore 5 (some "p1") c8State).2.products.map
        (fun p => p.unassignedBy)) = [some "a1"] ∧
    (c8State.agents.map (fun ag => ag.name)) = ["Alice"] ∧
    (some "a1" : Option String) ≠ some "Alice" := by
  decide

theorem length_insertSorted (le : α → α → Bool) (x : α) :
    ∀ l : List α, (insertSorted le x l).length = l.length + 1 := by
  intro l
  induction l with
  | nil => rfl
  | cons y ys ih =>
    by_cases h : le x y <;> simp [insertSorted, h, ih]

theorem length_jsSortBy (cmp : α → α → Int) :
    ∀ l : List α, (jsSortBy cmp l).length = l.length := by
  intro l
  induction l with
  | nil => rfl
  | cons x xs ih =>
    show (insertSorted _ x (jsSortBy cmp xs)).length = xs.length + 1
    rw [length_insertSorted, ih]

theorem jsSortBy_ne_nil {cmp : α → α → Int} {l : List α} (h : l ≠ []) :
    jsSortBy cmp l ≠ [] := by
  intro hc
  apply h
  have hlen := length_jsSortBy cmp l
  rw [hc] at hlen
  exact List.length_eq_zero.mp hlen.symm

/-- A successful assign whose first bucket is non-empty hands out the
head of the sorted first bucket. -/
theorem assign_success_head (now : Int) (newId : String) (aid? : Option String)
    (s : ServerState) (a : Assignment)
    (hsucc : (assignCore now newId aid? s).1 = Response.assigned a)
    (hne : wasAssignedCandidates s ≠ []) :
    ∃ chosen rest, jsSortBy cmpWasAssigned (wasAssignedCandidates s) = chosen :: rest ∧
      a.productId = chosen.id := by
  have hb : (jsSortBy cmpWasAssigned (wasAssignedCandidates s)).isEmpty = false := by
    cases hl : jsSortBy cmpWasAssigned (wasAssignedCandidates s) with
    | nil => exact absurd hl (jsSortBy_ne_nil hne)
    | cons x xs => rfl
  simp only [assignCore] at hsucc
  split at hsucc
  · cases hsucc
  · split at hsucc
    · cases hsucc
    · split at hsucc
      · cases hsucc
      · split at hsucc
        · cases hsucc
        · next chosen rest hmatch =>
          rw [if_neg (by simp [hb])] at hmatch
          refine ⟨chosen, rest, hmatch, ?_⟩
          have : Response.assigned _ = Response.assigned a := hsucc
          cases this
          rfl

/-- A successful assign always hands out a member of one of the two
candidate buckets. -/
theorem assign_success_chosen (now : Int) (newId : String) (aid? : Option String)
    (s : ServerState) (a : Assignment)
    (hsucc : (assignCore now newId aid? s).1 = Response.assigned a) :
    ∃ chosen, (chosen ∈ wasAssignedCandidates s ∨ chosen ∈ neverAssignedCandidates s) ∧
      a.productId = chosen.id := by
  simp only [assignCore] at hsucc
  split at hsucc
  · cases hsucc
  · split at hsucc
    · cases hsucc
    · split at hsucc
      · cases hsucc
      · split at hsucc
        · cases hsucc
        · next chosen rest hmatch =>
          refine ⟨chosen, assign_chosen_mem hmatch, ?_⟩
          have : Response.assigned _ = Response.assigned a := hsucc
          cases this
          rfl

/-- C1 (amended): when the set of available products with wasAssigned
true (previously assigned, whether unassigned or completed) is
non-empty, the allocator picks from that set, never from the
never-assigned products, regardless of the latter priorities; and
whenever every member of that set carries a recorded unassignment
time the chosen product has the oldest one.  The original claim keys
the set on a recorded unassignment time, which completed products
lack, so it fails; the amendment keys it on wasAssigned alone. -/
theorem C1_requeue_amended (now : Int) (newId : String) (aid? : Option String)
    (s : ServerState) (a : Assignment)
    (hsucc : (assignCore now newId aid? s).1 = Response.assigned a)
    (hne : wasAssignedCandidates s ≠ []) :
    ∃ chosen ∈ wasAssignedCandidates s,
      a.productId = chosen.id ∧ chosen.wasAssigned = true ∧
      ((∀ p ∈ wasAssignedCandidates s, p.unassignedTime.isSome = true) →
        ∀ p ∈ wasAssignedCandidates s,
          chosen.unassignedTime.getD 0 ≤ p.unassignedTime.getD 0) := by
  obtain ⟨chosen, rest, hmatch, hpid⟩ := assign_success_head now newId aid? s a hsucc hne
  have hmem : chosen ∈ wasAssignedCandidates s := by
    rw [← mem_jsSortBy cmpWasAssigned, hmatch]
    simp
  refine ⟨chosen, hmem, hpid, (mem_wasAssignedCandidates.mp hmem).2.2.2, ?_⟩
  intro hall p hp
  refine jsSortBy_head_min cmpWasAssigned (fun p => p.unassignedTime.getD 0)
    (fun p => p.unassignedTime.isSome = true) ?_ (wasAssignedCandidates s) hall
    chosen rest hmatch p hp
  intro x y hx hy
  rcases Option.isSome_iff_exists.mp hx with ⟨tx, htx⟩
  rcases Option.isSome_iff_exists.mp hy with ⟨ty, hty⟩
  simp only [cmpWasAssigned, htx, hty, Option.getD_some]
  omega

/-- C1 amended claim, witness: in a state with B1 unassigned at 13, B2
unassigned at 7 and a never-assigned P1 product N, assign picks B2, the
member of the wasAssigned bucket with the oldest unassignment time. -/
theorem C1_requeue_amended_witness :
    ((assignCore 20 "w" (some "ag") c1wState).1 =
      Response.assigned { id := "w", agentId := "ag", productId := "B2",
                          assignedOn := 20, completed := false, completedOn := none }) ∧
    wasAssignedCandidates c1wState ≠ [] ∧
    (∃ chosen ∈ wasAssignedCandidates c1wState,
      ({ id := "w", agentId := "ag", productId := "B2", assignedOn := 20,
         completed := false, completedOn := none } : Assignment).productId = chosen.id ∧
      chosen.wasAssigned = true ∧
      ((∀ p ∈ wasAssignedCandidates c1wState, p.unassignedTime.isSome = true) →
        ∀ p ∈ wasAssignedCandidates c1wState,
          chosen.unassignedTime.getD 0 ≤ p.unassignedTime.getD 0)) :=
  ⟨by decide, by decide,
    C1_requeue_amended 20 "w" (some "ag") c1wState
      { id := "w", agentId := "ag", productId := "B2", assignedOn := 20,
        completed := false, completedOn := none } (by decide) (by decide)⟩

/-- C10: a completed item re-enters the allocator pool in the
previously-assigned precedence bucket.  (i) A successful complete call
releases its product (assigned=false) while preserving wasAssigned and
unassignedTime (null for completed items) of every product; (ii) on a
later assign, whenever the wasAssigned bucket is non-empty the chosen
product comes from it, regardless of any never-assigned product's
priority; (iii) the bucket comparator falls back to createdOn order
whenever the left product has no recorded unassignment time. -/
theorem C10_completed_requeue :
    (∀ (now : Int) (aid? pid? : Option String) (s : ServerState) (pid : String),
      (completeCore now aid? pid? s).1 = Response.completedOk pid →
      ∀ q ∈ (completeCore now aid? pid? s).2.products,
        ∃ p ∈ s.products, q.id = p.id ∧ q.wasAssigned = p.wasAssigned ∧
          q.unassignedTime = p.unassignedTime ∧
          (q.id = pid → q.assigned = false) ∧ (q.id ≠ pid → q = p)) ∧
    (∀ (now : Int) (newId : String) (aid? : Option String) (s : ServerState)
        (a : Assignment),
      (assignCore now newId aid? s).1 = Response.assigned a →
      wasAssignedCandidates s ≠ [] →
      ∃ chosen ∈ wasAssignedCandidates s, a.productId = chosen.id ∧
        chosen.wasAssigned = true) ∧
    (∀ a b : Product, a.unassignedTime = none →
      cmpWasAssigned a b = a.createdOn - b.createdOn) := by
  refine ⟨?_, ?_, ?_⟩
  · intro now aid? pid? s pid hsucc q hq
    by_cases h1 : (isFalsyStr aid? || isFalsyStr pid?) = true
    · simp only [completeCore, h1, if_true] at hsucc
      cases hsucc
    · have h1f : (isFalsyStr aid? || isFalsyStr pid?) = false := by
        simpa using h1
      cases hfind : List.find? (fun a => a.id == aid?.getD "") s.agents with
      | none => simp [completeCore, h1f, hfind] at hsucc
      | some agent =>
        cases hidx : List.findIdx?
            (fun a => a.agentId == aid?.getD "" && a.productId == pid?.getD "" &&
              !a.completed) s.assignments with
        | none => simp [completeCore, h1f, hfind, hidx] at hsucc
        | some idx =>
          cases hget : s.assignments[idx]? with
          | none => simp [completeCore, h1f, hfind, hidx, hget] at hsucc
          | some asg =>
            simp only [completeCore, h1f, Bool.false_eq_true, if_false, hfind,
              hidx, hget] at hsucc hq
            have hpid : pid = pid?.getD "" := by
              have h2 : Response.completedOk (pid?.getD "") = Response.completedOk pid :=
                hsucc
              cases h2
              rfl
            rcases List.mem_map.mp hq with ⟨p, hp, rfl⟩
            by_cases hid : (p.id == pid?.getD "") = true
            · rw [if_pos hid]
              refine ⟨p, hp, rfl, rfl, rfl, fun _ => rfl, ?_⟩
              intro hne
              exact absurd (by rw [hpid]; exact beq_iff_eq.mp hid) hne
            · rw [if_neg hid]
              refine ⟨p, hp, rfl, rfl, rfl, ?_, fun _ => rfl⟩
              intro heq
              rw [← hpid] at hid
              exact absurd heq (by simpa using hid)
  · intro now newId aid? s a hsucc hne
    obtain ⟨chosen, rest, hmatch, hpid⟩ := assign_success_head now newId aid? s a hsucc hne
    have hmem : chosen ∈ wasAssignedCandidates s := by
      rw [← mem_jsSortBy cmpWasAssigned, hmatch]
      simp
    exact ⟨chosen, hmem, hpid, (mem_wasAssignedCandidates.mp hmem).2.2.2⟩
  · intro a b h
    cases hb : b.unassignedTime <;> simp [cmpWasAssigned, h, hb]

/-- C10 witness: assign C (P3) then complete it; on the next assign C
jumps the queue ahead of the never-assigned P1 product N, and the
comparator falls back to createdOn for C, whose unassignedTime is
null. -/
theorem C10_completed_requeue_witness :
    ((completeCore 2 (some "ag") (some "C") c10Mid).1 = Response.completedOk "C") ∧
    (∃ p ∈ c10Mid.products,
      ({ testProduct "C" "P3" 0 with wasAssigned := true } : Product).id = p.id ∧
      ({ testProduct "C" "P3" 0 with wasAssigned := true } : Product).wasAssigned = p.wasAssigned ∧
      ({ testProduct "C" "P3" 0 with wasAssigned := true } : Product).unassignedTime = p.unassignedTime ∧
      (({ testProduct "C" "P3" 0 with wasAssigned := true } : Product).id = "C" →
        ({ testProduct "C" "P3" 0 with wasAssigned := true } : Product).assigned = false) ∧
      (({ testProduct "C" "P3" 0 with wasAssigned := true } : Product).id ≠ "C" →
        ({ testProduct "C" "P3" 0 with wasAssigned := true } : Product) = p)) ∧
    (∃ chosen ∈ wasAssignedCandidates c10After,
      ({ id := "x2", agentId := "ag", productId := "C", assignedOn := 3,
         completed := false, completedOn := none } : Assignment).productId = chosen.id ∧
      chosen.wasAssigned = true) ∧
    cmpWasAssigned { testProduct "C" "P3" 0 with wasAssigned := true }
        (testProduct "N" "P1" 1) =
      ({ testProduct "C" "P3" 0 with wasAssigned := true } : Product).createdOn -
        (testProduct "N" "P1" 1).createdOn :=
  ⟨by decide,
   C10_completed_requeue.1 2 (some "ag") (some "C") c10Mid "C" (by decide)
     { testProduct "C" "P3" 0 with wasAssigned := true } (by decide),
   C10_completed_requeue.2.1 3 "x2" (some "ag") c10After
     { id := "x2", agentId := "ag", productId := "C", assignedOn := 3,
       completed := false, completedOn := none } (by decide) (by decide),
   C10_completed_requeue.2.2 { testProduct "C" "P3" 0 with wasAssigned := true }
     (testProduct "N" "P1" 1) rfl⟩

/-- C3: in every state reachable from a sane boot state by assign,
complete and unassign calls, each product id is referenced by at most
one Active (non-completed) assignment record; and a successful assign
never hands out a product already referenced by an Active record, for
every state, even one whose cached assigned flags are stale (the code
excludes every id referenced by any record of the assignments array, a
superset of the Active ones). -/
theorem C3_at_most_one_active (s₀ : ServerState) (ops : List Op)
    (hinit : goodInit s₀) :
    ((((runOps ops s₀).assignments.filter (fun a => !a.completed)).map
        (fun a => a.productId)).Nodup) ∧
    (∀ (now : Int) (newId : String) (aid? : Option String) (s : ServerState)
        (a : Assignment),
      (assignCore now newId aid? s).1 = Response.assigned a →
      a.productId ∉ ((s.assignments.filter (fun a => !a.completed)).map
        (fun a => a.productId))) := by
  constructor
  · obtain ⟨hNP, _, _, _, _⟩ := inv_runOps ops s₀ (inv_goodInit s₀ hinit)
    simp only [assignedProductIds] at hNP
    exact List.Nodup.sublist ((List.filter_sublist _).map _) hNP
  · intro now newId aid? s a hsucc
    obtain ⟨chosen, hmem, hpid⟩ := assign_success_chosen now newId aid? s a hsucc
    have hnotin : chosen.id ∉ assignedProductIds s := by
      rcases hmem with h | h
      · exact (mem_wasAssignedCandidates.mp h).2.2.1
      · exact (mem_neverAssignedCandidates.mp h).2.2.1
    rw [hpid]
    intro hmem2
    apply hnotin
    rcases List.mem_map.mp hmem2 with ⟨b, hb, hbid⟩
    rw [← hbid]
    exact List.mem_map_of_mem _ (List.mem_of_mem_filter hb)

theorem goodInit_c4State : goodInit c4State :=
  ⟨rfl, by decide, by decide⟩

/-- C3 witness: from the one-agent one-product boot state, after one
assign the Active productIds are still free of duplicates, and a
successful assign in the boot state hands out a product not referenced
by any Active record. -/
theorem C3_at_most_one_active_witness :
    goodInit c4State ∧
    ((((runOps c4Ops c4State).assignments.filter (fun a => !a.completed)).map
        (fun a => a.productId)).Nodup) ∧
    (({ id := "w1", agentId := "ag", productId := "W", assignedOn := 5,
        completed := false, completedOn := none } : Assignment).productId ∉
      ((c4State.assignments.filter (fun a => !a.completed)).map
        (fun a => a.productId))) :=
  ⟨goodInit_c4State, (C3_at_most_one_active c4State c4Ops goodInit_c4State).1,
   (C3_at_most_one_active c4State c4Ops goodInit_c4State).2 5 "w1" (some "ag") c4State
     { id := "w1", agentId := "ag", productId := "W", assignedOn := 5,
       completed := false, completedOn := none } (by decide)⟩

/-- C4: in every state reachable from a sane boot state, no agent's
active-assignment count exceeds its capacity; and for every state, a
call to assign for an agent at or above capacity fails with the
capacity error and returns the state completely unchanged. -/
theorem C4_capacity_invariant (s₀ : ServerState) (ops : List Op)
    (hinit : goodInit s₀) :
    (∀ ag ∈ (runOps ops s₀).agents, ag.currentAssignments.length ≤ ag.capacity) ∧
    (∀ (now : Int) (newId : String) (aid : String) (agent : Agent)
        (s : ServerState),
      aid ≠ "" →
      s.agents.find? (fun a => a.id == aid) = some agent →
      agent.capacity ≤ agent.currentAssignments.length →
      assignCore now newId (some aid) s = (Response.capacityExceeded, s)) := by
  constructor
  · exact (inv_runOps ops s₀ (inv_goodInit s₀ hinit)).2.2.2.2
  · intro now newId aid agent s hne hfind hge
    have hfalsy : isFalsyStr (some aid) = false := by
      simp [isFalsyStr, hne]
    simp only [assignCore, hfalsy, Bool.false_eq_true, if_false, Option.getD_some, hfind]
    rw [if_pos hge]

/-- C4 witness: after assigning the only product to the capacity-1
agent, its count 1 equals its capacity, and a further assign call
returns the capacity error leaving the state unchanged. -/
theorem C4_capacity_invariant_witness :
    goodInit c4State ∧
    (∀ ag ∈ (runOps c4Ops c4State).agents,
      ag.currentAssignments.length ≤ ag.capacity) ∧
    assignCore 20 "w2" (some "ag") (runOps c4Ops c4State) =
      (Response.capacityExceeded, runOps c4Ops c4State) :=
  ⟨goodInit_c4State, (C4_capacity_invariant c4State c4Ops goodInit_c4State).1,
   (C4_capacity_invariant c4State c4Ops goodInit_c4State).2 20 "w2" "ag"
     { id := "ag", name := "Agent One", capacity := 1, currentAssignments := ["W"] }
     (runOps c4Ops c4State) (by decide) (by decide) (by decide)⟩

theorem jsSortBy_nil (cmp : α → α → Int) : jsSortBy cmp [] = [] := rfl

/-- C5: the assign endpoint checks its preconditions in a fixed order,
each failing with its own distinct response and leaving the state
unchanged: (1) falsy agentId, (2) agent not found, (3) agent at or over
capacity, (4) no product both available and unreferenced by an Active
assignment record; an earlier failure short-circuits the later checks. -/
theorem C5_precondition_order (now : Int) (newId : String) (aid? : Option String)
    (s : ServerState) :
    (isFalsyStr aid? = true →
      assignEndpoint false now newId aid? s =
        (Response.invalidArgument "Agent ID is required", s, false)) ∧
    (∀ aid, aid? = some aid → aid ≠ "" →
      s.agents.find? (fun a => a.id == aid) = none →
      assignEndpoint false now newId aid? s = (Response.agentNotFound, s, false)) ∧
    (∀ aid agent, aid? = some aid → aid ≠ "" →
      s.agents.find? (fun a => a.id == aid) = some agent →
      agent.capacity ≤ agent.currentAssignments.length →
      assignEndpoint false now newId aid? s = (Response.capacityExceeded, s, false)) ∧
    (∀ aid agent, aid? = some aid → aid ≠ "" →
      s.agents.find? (fun a => a.id == aid) = some agent →
      agent.currentAssignments.length < agent.capacity →
      (∀ a ∈ s.assignments, a.completed = false) →
      (∀ p ∈ s.products, p.assigned = false →
        p.id ∈ (s.assignments.filter (fun a => !a.completed)).map
          (fun a => a.productId)) →
      assignEndpoint false now newId aid? s = (Response.noAvailableWork, s, false)) ∧
    [Response.invalidArgument "Agent ID is required", Response.agentNotFound,
      Response.capacityExceeded, Response.noAvailableWork].Pairwise
      (fun x y => x ≠ y) := by
  refine ⟨?_, ?_, ?_, ?_, by decide⟩
  · intro h
    simp [assignEndpoint, assignCore, h]
  · intro aid haid hne hfind
    subst haid
    have hfalsy : isFalsyStr (some aid) = false := by simp [isFalsyStr, hne]
    simp [assignEndpoint, assignCore, hfalsy, hfind]
  · intro aid agent haid hne hfind hge
    subst haid
    have hfalsy : isFalsyStr (some aid) = false := by simp [isFalsyStr, hne]
    simp only [assignEndpoint, assignCore, hfalsy, Bool.false_eq_true, if_false,
      Option.getD_some, hfind]
    rw [if_pos hge]
  · intro aid agent haid hne hfind hlt hactive havail
    subst haid
    have hfalsy : isFalsyStr (some aid) = false := by simp [isFalsyStr, hne]
    have hsubset : ∀ x : String,
        x ∈ (s.assignments.filter (fun a => !a.completed)).map (fun a => a.productId) →
          x ∈ assignedProductIds s := by
      intro x hx
      rcases List.mem_map.mp hx with ⟨b, hb, hbx⟩
      rw [← hbx]
      exact List.mem_map_of_mem _ (List.mem_of_mem_filter hb)
    have hwac : wasAssignedCandidates s = [] := by
      rw [wasAssignedCandidates, List.filter_eq_nil_iff]
      intro p hp hpred
      simp only [Bool.and_eq_true, Bool.not_eq_true'] at hpred
      exact (contains_false_iff.mp hpred.1.2) (hsubset _ (havail p hp hpred.1.1))
    have hnac : neverAssignedCandidates s = [] := by
      rw [neverAssignedCandidates, List.filter_eq_nil_iff]
      intro p hp hpred
      simp only [Bool.and_eq_true, Bool.not_eq_true'] at hpred
      exact (contains_false_iff.mp hpred.1.2) (hsubset _ (havail p hp hpred.1.1))
    have hnot : ¬ (agent.capacity ≤ agent.currentAssignments.length) :=
      Nat.not_le.mpr hlt
    simp [assignEndpoint, assignCore, hfalsy, hfind, hnot, hwac, hnac, jsSortBy_nil]

/-- C5 witness: on concrete states, each of the four precondition
failures produces exactly its own response with the state returned
unchanged and the lock released. -/
theorem C5_precondition_order_witness :
    (assignEndpoint false 1 "n1" none c5EmptyState =
      (Response.invalidArgument "Agent ID is required", c5EmptyState, false)) ∧
    (assignEndpoint false 1 "n2" (some "zz") c5EmptyState =
      (Response.agentNotFound, c5EmptyState, false)) ∧
    (assignEndpoint false 1 "n3" (some "ag") (runOps c4Ops c4State) =
      (Response.capacityExceeded, runOps c4Ops c4State, false)) ∧
    (assignEndpoint false 1 "n4" (some "ag") c5EmptyState =
      (Response.noAvailableWork, c5EmptyState, false)) :=
  ⟨(C5_precondition_order 1 "n1" none c5EmptyState).1 rfl,
   (C5_precondition_order 1 "n2" (some "zz") c5EmptyState).2.1 "zz" rfl
     (by decide) (by decide),
   (C5_precondition_order 1 "n3" (some "ag") (runOps c4Ops c4State)).2.2.1 "ag"
     { id := "ag", name := "Agent One", capacity := 1, currentAssignments := ["W"] }
     rfl (by decide) (by decide) (by decide),
   (C5_precondition_order 1 "n4" (some "ag") c5EmptyState).2.2.2.1 "ag" c4Agent
     rfl (by decide) (by decide) (by decide) (by decide) (by decide)⟩

/-- C7: terminal states are never left.  Every endpoint call only ever
appends to the completedAssignments ledger, never rewriting or
removing a completed record; and a complete call for a pair with no
matching Active assignment record - in particular when the matching
assignment was already completed (moved to the ledger) or unassigned
(deleted) - fails with the active-assignment-not-found response and
returns the state unchanged. -/
theorem C7_terminal_irreversibility :
    (∀ (op : Op) (s : ServerState), ∃ t,
      (applyOp op s).completedAssignments = s.completedAssignments ++ t) ∧
    (∀ (now : Int) (aid pid : String) (s : ServerState),
      aid ≠ "" → pid ≠ "" →
      (s.agents.find? (fun a => a.id == aid)).isSome = true →
      s.assignments.findIdx? (fun a => a.agentId == aid && a.productId == pid &&
        !a.completed) = none →
      completeCore now (some aid) (some pid) s =
        (Response.activeAssignmentNotFound, s)) := by
  constructor
  · intro op s
    cases op with
    | assign now newId aid =>
      simp only [applyOp, assignCore]
      split
      · exact ⟨[], by simp⟩
      · split
        · exact ⟨[], by simp⟩
        · split
          · exact ⟨[], by simp⟩
          · split
            · exact ⟨[], by simp⟩
            · exact ⟨[], by simp⟩
    | complete now aid pid =>
      simp only [applyOp, completeCore]
      split
      · exact ⟨[], by simp⟩
      · split
        · exact ⟨[], by simp⟩
        · split
          · exact ⟨[], by simp⟩
          · split
            · exact ⟨[], by simp⟩
            · exact ⟨_, rfl⟩
    | unassignProduct now pid =>
      simp only [applyOp, unassignProductCore]
      split
      · exact ⟨[], by simp⟩
      · split
        · exact ⟨[], by simp⟩
        · exact ⟨[], by simp⟩
    | unassignAgent now aid =>
      simp only [applyOp, unassignAgentCore]
      split
      · exact ⟨[], by simp⟩
      · split
        · exact ⟨[], by simp⟩
        · split
          · exact ⟨[], by simp⟩
          · exact ⟨[], by simp⟩
    | unassignAll now =>
      exact ⟨[], by simp [applyOp, unassignAllCore]⟩
  · intro now aid pid s hne hpne hsome hidx
    have h1f : (isFalsyStr (some aid) || isFalsyStr (some pid)) = false := by
      simp [isFalsyStr, hne, hpne]
    rcases Option.isSome_iff_exists.mp hsome with ⟨agent, hfind⟩
    simp [completeCore, h1f, hfind, hidx]

/-- C7 witness: on a state whose only record for the pair (ag, W) is
already in the completed ledger, any endpoint call keeps that ledger as
a prefix, and completing (ag, W) again fails with the
active-assignment-not-found response leaving the state unchanged. -/
theorem C7_terminal_irreversibility_witness :
    (∃ t, (applyOp (Op.unassignAll 9) c7State).completedAssignments =
      c7State.completedAssignments ++ t) ∧
    completeCore 9 (some "ag") (some "W") c7State =
      (Response.activeAssignmentNotFound, c7State) :=
  ⟨C7_terminal_irreversibility.1 (Op.unassignAll 9) c7State,
   C7_terminal_irreversibility.2 9 "ag" "W" c7State (by decide) (by decide)
     (by decide) (by decide)⟩

/-- C8 (amended): every unassign variant records the unassignment time
and releases the item (assigned=false, wasAssigned=true); unassignedBy
is set to the agent id of the first matching active assignment for
unassign-product, to the given agent id for unassign-agent, and to the
literal string "all" for unassign-all - the agent's name is never
stored (only the MongoDB iteration in src/unnamed/part_002 does that). -/
theorem C8_unassign_amended :
    (∀ (now : Int) (pid : String) (s : ServerState) (firstA : Assignment)
        (restA : List Assignment),
      pid ≠ "" →
      s.assignments.filter (fun a => a.productId == pid && !a.completed) =
        firstA :: restA →
      ∀ q ∈ (unassignProductCore now (some pid) s).2.products, q.id = pid →
        q.assigned = false ∧ q.wasAssigned = true ∧
        q.unassignedTime = some now ∧ q.unassignedBy = some firstA.agentId) ∧
    (∀ (now : Int) (aid : String) (s : ServerState) (agent : Agent),
      aid ≠ "" →
      s.agents.find? (fun a => a.id == aid) = some agent →
      agent.currentAssignments ≠ [] →
      ∀ q ∈ (unassignAgentCore now (some aid) s).2.products,
        q.id ∈ agent.currentAssignments →
        q.assigned = false ∧ q.wasAssigned = true ∧
        q.unassignedTime = some now ∧ q.unassignedBy = some aid) ∧
    (∀ (now : Int) (s : ServerState),
      ∀ q ∈ (unassignAllCore now s).2.products,
        (∃ a ∈ s.assignments, a.completed = false ∧ a.productId = q.id) →
        q.assigned = false ∧ q.wasAssigned = true ∧
        q.unassignedTime = some now ∧ q.unassignedBy = some "all") := by
  refine ⟨?_, ?_, ?_⟩
  · intro now pid s firstA restA hne hfil q hq hqid
    have hfalsy : isFalsyStr (some pid) = false := by simp [isFalsyStr, hne]
    simp only [unassignProductCore, hfalsy, Bool.false_eq_true, if_false,
      Option.getD_some, hfil, setUnassigned] at hq
    rcases List.mem_map.mp hq with ⟨p, hp, rfl⟩
    by_cases hid : (p.id == pid) = true
    · rw [if_pos hid]
      exact ⟨rfl, rfl, rfl, rfl⟩
    · rw [if_neg hid] at hqid ⊢
      exact absurd hqid (by simpa using hid)
  · intro now aid s agent hne hfind hcur q hq hqid
    have hfalsy : isFalsyStr (some aid) = false := by simp [isFalsyStr, hne]
    have hlen : (agent.currentAssignments.length == 0) = false := by
      cases hc : agent.currentAssignments with
      | nil => exact absurd hc hcur
      | cons x xs => simp [hc]
    simp only [unassignAgentCore, hfalsy, Bool.false_eq_true, if_false,
      Option.getD_some, hfind, hlen, setUnassignedMany] at hq
    rcases List.mem_map.mp hq with ⟨p, hp, rfl⟩
    by_cases hid : (agent.currentAssignments.contains p.id) = true
    · rw [if_pos hid]
      exact ⟨rfl, rfl, rfl, rfl⟩
    · rw [if_neg hid] at hqid
      exact absurd hqid (contains_false_iff.mp (by simpa using hid))
  · intro now s q hq hex
    simp only [unassignAllCore] at hq
    rcases List.mem_map.mp hq with ⟨p, hp, rfl⟩
    by_cases hc : (s.assignments.any (fun a => !a.completed && a.productId == p.id)) = true
    · rw [if_pos hc]
      exact ⟨rfl, rfl, rfl, rfl⟩
    · rw [if_neg hc] at hex
      rcases hex with ⟨a, ha, hac, hapid⟩
      exact absurd (List.any_eq_true.mpr ⟨a, ha, by simp [hac, hapid]⟩) hc

/-- C8 amended claim, witness: on the Alice/p1 state, each unassign
variant releases p1 with the recorded time and stamps unassignedBy with
the agent id a1 (or the literal all), never the name Alice. -/
theorem C8_unassign_amended_witness :
    ((c8Unassigned 5 "a1").assigned = false ∧
      (c8Unassigned 5 "a1").wasAssigned = true ∧
      (c8Unassigned 5 "a1").unassignedTime = some 5 ∧
      (c8Unassigned 5 "a1").unassignedBy = some c8Assignment.agentId) ∧
    ((c8Unassigned 6 "a1").assigned = false ∧
      (c8Unassigned 6 "a1").wasAssigned = true ∧
      (c8Unassigned 6 "a1").unassignedTime = some 6 ∧
      (c8Unassigned 6 "a1").unassignedBy = some "a1") ∧
    ((c8Unassigned 7 "all").assigned = false ∧
      (c8Unassigned 7 "all").wasAssigned = true ∧
      (c8Unassigned 7 "all").unassignedTime = some 7 ∧
      (c8Unassigned 7 "all").unassignedBy = some "all") :=
  ⟨C8_unassign_amended.1 5 "p1" c8State c8Assignment [] (by decide) (by decide)
     (c8Unassigned 5 "a1") (by decide) (by decide),
   C8_unassign_amended.2.1 6 "a1" c8State c8Agent (by decide) (by decide) (by decide)
     (c8Unassigned 6 "a1") (by decide) (by decide),
   C8_unassign_amended.2.2 7 c8State (c8Unassigned 7 "all") (by decide)
     ⟨c8Assignment, by decide, by decide, by decide⟩⟩

/-- mergeInto either replaces the first product matching the row id in
place (keeping the slot when it is assigned, otherwise refreshing it
with preserved history), or appends a fresh product when no id
matches. -/
theorem mergeInto_spec (r : CsvRow) :
    ∀ cur : List Product,
      (∃ (k : Nat) (hk : k < cur.length),
        cur[k].id = r.rowId ∧
        mergeInto cur r = cur.set k
          (if cur[k].assigned then cur[k]
           else { createProductFromCsvRow r with
                    wasAssigned := cur[k].wasAssigned,
                    unassignedTime := cur[k].unassignedTime,
                    unassignedBy := cur[k].unassignedBy })) ∨
      ((∀ p ∈ cur, p.id ≠ r.rowId) ∧
        mergeInto cur r = cur ++ [createProductFromCsvRow r]) := by
  intro cur
  induction cur with
  | nil =>
    right
    exact ⟨by simp, rfl⟩
  | cons p rest ih =>
    by_cases hid : (p.id == r.rowId) = true
    · left
      refine ⟨0, by simp, by simpa using beq_iff_eq.mp hid, ?_⟩
      show mergeInto (p :: rest) r = _
      simp only [mergeInto, hid, if_true]
      by_cases ha : p.assigned = true <;>
        simp [ha, List.set_cons_zero]
    · rcases ih with ⟨k, hk, hkid, heq⟩ | ⟨hall, heq⟩
      · left
        refine ⟨k + 1, by simpa using Nat.succ_lt_succ hk, by simpa using hkid, ?_⟩
        show mergeInto (p :: rest) r = _
        simp only [mergeInto, hid, Bool.false_eq_true, if_false, heq,
          List.getElem_cons_succ, List.set_cons_succ]
      · right
        refine ⟨?_, ?_⟩
        · intro x hx
          rcases List.mem_cons.mp hx with rfl | hx
          · simpa using hid
          · exact hall x hx
        · show mergeInto (p :: rest) r = _
          simp only [mergeInto, hid, Bool.false_eq_true, if_false, heq,
            List.cons_append]

theorem mergeRel_refl (ps : List Product) : MergeRel ps ps := by
  refine ⟨le_refl _, ?_, ?_⟩
  · intro i hi hi2
    exact ⟨rfl, fun _ => rfl, fun h => ⟨h, rfl, rfl, rfl⟩⟩
  · intro j hj hge
    exact absurd hj (by omega)

theorem mergeRel_mergeStep (ps cur : List Product) (r : CsvRow)
    (h : MergeRel ps cur) : MergeRel ps (mergeStep cur r) := by
  obtain ⟨hlen, hold, hnew⟩ := h
  rw [mergeStep]
  by_cases h0 : (r.rowId == "") = true
  · rw [if_pos h0]
    exact ⟨hlen, hold, hnew⟩
  · rw [if_neg h0]
    rcases mergeInto_spec r cur with ⟨k, hk, hkid, heq⟩ | ⟨hall, heq⟩
    · rw [heq]
      set v := (if cur[k].assigned = true then cur[k]
        else { createProductFromCsvRow r with
                 wasAssigned := cur[k].wasAssigned,
                 unassignedTime := cur[k].unassignedTime,
                 unassignedBy := cur[k].unassignedBy }) with hv
      have hv_id : v.id = cur[k].id := by
        rw [hv]
        by_cases ha : cur[k].assigned = true
        · rw [if_pos ha]
        · rw [if_neg ha]
          exact hkid.symm
      have hv_of_assigned : cur[k].assigned = true → v = cur[k] := by
        intro ha
        rw [hv, if_pos ha]
      have hv_of_free : cur[k].assigned = false →
          v.assigned = false ∧ v.wasAssigned = cur[k].wasAssigned ∧
          v.unassignedTime = cur[k].unassignedTime ∧
          v.unassignedBy = cur[k].unassignedBy := by
        intro ha
        rw [hv, if_neg (by simp [ha])]
        exact ⟨rfl, rfl, rfl, rfl⟩
      refine ⟨by simpa [List.length_set] using hlen, ?_, ?_⟩
      · intro i hi hi2'
        have hi2 : i < cur.length := by simpa using hi2'
        by_cases hik : k = i
        · subst hik
          have hgs : (cur.set k v)[k] = v := List.getElem_set_self hi2'
          obtain ⟨hid_old, hasg_old, hfree_old⟩ := hold k hi hi2
          refine ⟨by rw [hgs, hv_id, hid_old], ?_, ?_⟩
          · intro hpa
            have hck : cur[k] = ps[k] := hasg_old hpa
            rw [hgs, hv_of_assigned (by rw [hck, hpa]), hck]
          · intro hpa
            obtain ⟨hfa, hfw, hft, hfb⟩ := hfree_old hpa
            obtain ⟨hva, hvw, hvt, hvb⟩ := hv_of_free hfa
            exact ⟨by rw [hgs, hva], by rw [hgs, hvw, hfw],
              by rw [hgs, hvt, hft], by rw [hgs, hvb, hfb]⟩
        · rw [List.getElem_set_ne hik]
          exact hold i hi hi2
      · intro j hj' hge
        have hj : j < cur.length := by simpa using hj'
        by_cases hjk : k = j
        · subst hjk
          have hgs : (cur.set k v)[k] = v := List.getElem_set_self hj'
          obtain ⟨hna, hnw, hni⟩ := hnew k hj hge
          obtain ⟨hva, hvw, hvt, hvb⟩ := hv_of_free hna
          exact ⟨by rw [hgs, hva], by rw [hgs, hvw, hnw],
            by rw [hgs, hv_id]; exact hni⟩
        · rw [List.getElem_set_ne hjk]
          exact hnew j hj hge
    · rw [heq]
      refine ⟨le_trans hlen (by simp), ?_, ?_⟩
      · intro i hi hi2'
        have hi2 : i < cur.length := lt_of_lt_of_le hi hlen
        rw [List.getElem_append_left hi2]
        exact hold i hi hi2
      · intro j hj' hge
        by_cases hjc : j < cur.length
        · rw [List.getElem_append_left hjc]
          exact hnew j hjc hge
        · have hle : cur.length ≤ j := Nat.le_of_not_lt hjc
          rw [List.getElem_append_right hle]
          have hj0 : j - cur.length = 0 := by
            have : j < cur.length + 1 := by simpa using hj'
            omega
          simp only [hj0, List.getElem_cons_zero]
          refine ⟨rfl, rfl, ?_⟩
          intro hmem
          rcases List.mem_map.mp hmem with ⟨q, hq, hqid⟩
          rcases List.mem_iff_getElem.mp hq with ⟨i, hi, hiq⟩
          have hi2 : i < cur.length := lt_of_lt_of_le hi hlen
          have hcid : cur[i].id = r.rowId := by
            rw [(hold i hi hi2).1, hiq, hqid]
            rfl
          exact hall cur[i] (List.getElem_mem hi2) hcid

theorem mergeRel_merge (rows : List CsvRow) (ps : List Product) :
    MergeRel ps (mergeProductsFromCsv rows ps) := by
  rw [mergeProductsFromCsv]
  suffices h : ∀ (rows : List CsvRow) (cur : List Product),
      MergeRel ps cur → MergeRel ps (rows.foldl mergeStep cur) from
    h rows ps (mergeRel_refl ps)
  intro rows
  induction rows with
  | nil => intro cur h; exact h
  | cons r rest ih =>
    intro cur h
    exact ih _ (mergeRel_mergeStep ps cur r h)

/-- C9: the CSV merge never touches an existing product that is
currently assigned; an existing product with no active assignment may
have its fields refreshed but keeps its id, stays unassigned, and keeps
its assignment history (wasAssigned, unassignedTime, unassignedBy);
and everything beyond the original list is a genuinely new product id,
inserted unassigned with empty history. -/
theorem C9_merge_frame (rows : List CsvRow) (ps : List Product) :
    ps.length ≤ (mergeProductsFromCsv rows ps).length ∧
    (∀ (i : Nat) (hi : i < ps.length)
        (hi2 : i < (mergeProductsFromCsv rows ps).length),
      (mergeProductsFromCsv rows ps)[i].id = ps[i].id ∧
      (ps[i].assigned = true → (mergeProductsFromCsv rows ps)[i] = ps[i]) ∧
      (ps[i].assigned = false →
        (mergeProductsFromCsv rows ps)[i].assigned = false ∧
        (mergeProductsFromCsv rows ps)[i].wasAssigned = ps[i].wasAssigned ∧
        (mergeProductsFromCsv rows ps)[i].unassignedTime = ps[i].unassignedTime ∧
        (mergeProductsFromCsv rows ps)[i].unassignedBy = ps[i].unassignedBy)) ∧
    (∀ (j : Nat) (hj : j < (mergeProductsFromCsv rows ps).length),
      ps.length ≤ j →
      (mergeProductsFromCsv rows ps)[j].assigned = false ∧
      (mergeProductsFromCsv rows ps)[j].wasAssigned = false ∧
      (mergeProductsFromCsv rows ps)[j].id ∉ ps.map (fun p => p.id)) :=
  mergeRel_merge rows ps

/-- C9 witness: merging three rows (refreshing assigned E1, unassigned
E2, and new F) into the two-product store leaves E1 untouched,
preserves the unassignment history of E2, and appends F unassigned
with a fresh id. -/
theorem C9_merge_frame_witness :
    c9Products.length ≤ (mergeProductsFromCsv c9Rows c9Products).length ∧
    (mergeProductsFromCsv c9Rows c9Products).get ⟨0, by decide⟩ =
      c9Products.get ⟨0, by decide⟩ ∧
    ((mergeProductsFromCsv c9Rows c9Products).get ⟨1, by decide⟩).unassignedTime =
      (c9Products.get ⟨1, by decide⟩).unassignedTime ∧
    ((mergeProductsFromCsv c9Rows c9Products).get ⟨2, by decide⟩).wasAssigned = false ∧
    ((mergeProductsFromCsv c9Rows c9Products).get ⟨2, by decide⟩).id ∉
      c9Products.map (fun p => p.id) :=
  ⟨(C9_merge_frame c9Rows c9Products).1,
   ((C9_merge_frame c9Rows c9Products).2.1 0 (by decide) (by decide)).2.1 (by decide),
   (((C9_merge_frame c9Rows c9Products).2.1 1 (by decide) (by decide)).2.2
     (by decide)).2.2.1,
   ((C9_merge_frame c9Rows c9Products).2.2 2 (by decide) (by decide)).2.1,
   ((C9_merge_frame c9Rows c9Products).2.2 2 (by decide) (by decide)).2.2⟩

end ProductAssignment
